import Mathlib

/-!
Verification of the RDN (Rich Data Notation) Rust codec against its
natural-language specification.  The definitions below are a shallow
embedding of the Rust sources:

* `src/packages/rdn-rust/src/types.rs`      — value model, validated constructors,
  string escaping, `Display` implementation;
* `src/packages/rdn-rust/src/parser.rs`     — `parse` (a stub returning
  `Err("Not implemented")` in the source);
* `src/packages/rdn-rust/src/serializer.rs` — `stringify` (a stub whose body is
  `todo!()`, i.e. it panics; modelled as returning `none`);
* `src/implementations/rust/src/types.rs`   — a second `Display` implementation.

Rust `&str` values are embedded as Lean `String`; iteration with `.chars()` is
modelled by `String.toList`.  Rust `f64` payloads are embedded abstractly as
`F64Model` recording exactly the observations the embedded code makes of a
double (`is_nan`, `is_infinite`, `is_sign_positive`) together with the text the
standard `Display` for a finite double would produce; none of the verified
claims depends on the concrete float formatting.  Fallible constructors return
`Except String`, mirroring `Result<_, String>`.
-/

namespace Rdn

/-- Abstract model of a Rust `f64` payload: the observations the embedded code
makes of it, plus the text Rust's `Display` would print for a finite value. -/
structure F64Model where
  isNan : Bool
  isInfinite : Bool
  isSignPositive : Bool
  finiteRepr : String
  deriving DecidableEq, Repr

/-- Arbitrary-precision integer, stored as its validated digit string
(struct `BigInt` in types.rs). -/
structure BigInt where
  value : String
  deriving DecidableEq, Repr

/-- A date/time value, milliseconds since the Unix epoch (struct `RdnDate`). -/
structure RdnDate where
  millis : F64Model
  deriving DecidableEq, Repr

/-- A time-of-day value (struct `RdnTimeOnly`); fields are `u8`/`u16` in Rust,
embedded as `Nat`. -/
structure RdnTimeOnly where
  hours : Nat
  minutes : Nat
  seconds : Nat
  milliseconds : Nat
  deriving DecidableEq, Repr

/-- An ISO 8601 duration (struct `RdnDuration`). -/
structure RdnDuration where
  iso : String
  deriving DecidableEq, Repr

/-- A regular expression with pattern and flags (struct `RdnRegExp`). -/
structure RdnRegExp where
  source : String
  flags : String
  deriving DecidableEq, Repr

/-- The RDN value model — enum `RdnValue` in types.rs (identical in both
copies of the file).  `Vec<u8>` binary payloads are embedded as `List Nat`. -/
inductive RdnValue where
  | null
  | bool (b : Bool)
  | number (n : F64Model)
  | bigInt (b : BigInt)
  | string (s : String)
  | array (xs : List RdnValue)
  | object (ps : List (String × RdnValue))
  | date (d : RdnDate)
  | timeOnly (t : RdnTimeOnly)
  | duration (d : RdnDuration)
  | regExp (r : RdnRegExp)
  | binary (bs : List Nat)
  | map (ps : List (RdnValue × RdnValue))
  | set (xs : List RdnValue)

/-- Boolean success test for an `Except` result, mirroring `Result::is_ok`. -/
def isOkE {α : Type} : Except String α → Bool
  | .ok _ => true
  | .error _ => false

/-- Models Rust `value.strip_prefix('-')`: `some rest` when the char list
starts with `'-'`, `none` otherwise. -/
def stripMinus : List Char → Option (List Char)
  | '-' :: rest => some rest
  | _ => none

/-- Embedding of `BigInt::new` from types.rs: rejects the empty string, strips one optional
leading `'-'`, requires the remainder to be non-empty and all ASCII digits,
and stores the original input verbatim. -/
def BigInt.new (value : String) : Except String BigInt :=
  if value.toList.isEmpty then .error "BigInt value must not be empty"
  else if ((stripMinus value.toList).getD value.toList).isEmpty then
    .error "BigInt value must contain digits after optional sign"
  else if ¬ ((stripMinus value.toList).getD value.toList).all Char.isDigit then
    .error ("BigInt value contains non-digit characters: " ++ value)
  else .ok ⟨value⟩

/-- The spec's description of a valid BigInt input: an optional leading `'-'`
followed by one or more ASCII digits. -/
def isValidBigIntText (s : String) : Bool :=
  if s.toList.head? = some '-' then
    !s.toList.tail.isEmpty && s.toList.tail.all Char.isDigit
  else
    !s.toList.isEmpty && s.toList.all Char.isDigit

/-- Embedding of `RdnTimeOnly::new` from types.rs: each field range-checked in order. -/
def RdnTimeOnly.new (hours minutes seconds milliseconds : Nat) :
    Except String RdnTimeOnly :=
  if hours > 23 then .error "hours must be 0-23"
  else if minutes > 59 then .error "minutes must be 0-59"
  else if seconds > 59 then .error "seconds must be 0-59"
  else if milliseconds > 999 then .error "milliseconds must be 0-999"
  else .ok ⟨hours, minutes, seconds, milliseconds⟩

lemma stripMinus_cons_ne {c : Char} (rest : List Char) (hc : c ≠ '-') :
    stripMinus (c :: rest) = none := by
  unfold stripMinus
  split
  · rename_i heq
    injection heq with h1 h2
    exact absurd h1 hc
  · rfl

/-- Models Rust `Iterator::position` over a char list: index of the first
element satisfying `p`, if any. -/
def listPosition (p : Char → Bool) : List Char → Option Nat
  | [] => none
  | a :: as => if p a then some 0 else (listPosition p as).map (· + 1)

/-- The `VALID_FLAGS` constant of `RdnRegExp::new`. -/
def VALID_FLAGS : List Char := ['d', 'g', 'i', 'm', 's', 'u', 'v', 'y']

/-- The flag-checking loop of `RdnRegExp::new`, with the `seen: [bool; 8]`
array embedded as a `List Bool` and the loop as structural recursion over the
flag characters. -/
def regExpFlagsLoop (seen : List Bool) : List Char → Except String Unit
  | [] => .ok ()
  | ch :: rest =>
    match listPosition (fun f => f == ch) VALID_FLAGS with
    | some idx =>
      if seen.getD idx false then .error ("duplicate regex flag: " ++ ch.toString)
      else regExpFlagsLoop (seen.set idx true) rest
    | none => .error ("invalid regex flag: " ++ ch.toString)

/-- Embedding of `RdnRegExp::new` from types.rs: validates the flags with
`regExpFlagsLoop`, then stores source and flags verbatim. -/
def RdnRegExp.new (source flags : String) : Except String RdnRegExp :=
  match regExpFlagsLoop (List.replicate 8 false) flags.toList with
  | .ok _ => .ok ⟨source, flags⟩
  | .error e => .error e

lemma listPosition_eq_some {c : Char} :
    ∀ {l : List Char} {i : Nat},
      listPosition (fun f => f == c) l = some i → l[i]? = some c := by
  intro l
  induction l with
  | nil => intro i h; exact absurd h (by simp [listPosition])
  | cons a as ih =>
    intro i h
    simp only [listPosition] at h
    by_cases hp : (a == c) = true
    · rw [if_pos hp] at h
      injection h with h0
      rw [← h0]
      simp [beq_iff_eq.mp hp]
    · rw [if_neg hp] at h
      obtain ⟨j, hj, hij⟩ := Option.map_eq_some'.mp h
      subst hij
      simpa using ih hj

lemma listPosition_isSome_iff {c : Char} :
    ∀ {l : List Char}, (listPosition (fun f => f == c) l).isSome ↔ c ∈ l := by
  intro l
  induction l with
  | nil => simp [listPosition]
  | cons a as ih =>
    simp only [listPosition, List.mem_cons]
    by_cases hp : (a == c) = true
    · simp [hp, beq_iff_eq.mp hp]
    · rw [if_neg hp]
      have : ¬ a = c := fun hac => hp (beq_iff_eq.mpr hac)
      simp [Option.isSome_map, ih, this, eq_comm (a := c)]

lemma idx_injective {c c' : Char} {i : Nat}
    (h : listPosition (fun f => f == c) VALID_FLAGS = some i)
    (h' : listPosition (fun f => f == c') VALID_FLAGS = some i) : c = c' := by
  have h1 := listPosition_eq_some h
  have h2 := listPosition_eq_some h'
  rw [h1] at h2
  injection h2

lemma idx_lt_eight {c : Char} {i : Nat}
    (h : listPosition (fun f => f == c) VALID_FLAGS = some i) : i < 8 := by
  have h1 := listPosition_eq_some h
  have := List.getElem?_eq_some_iff.mp h1
  simpa [VALID_FLAGS] using this.1

lemma getD_set_true_self :
    ∀ (l : List Bool) (i : Nat), i < l.length → (l.set i true).getD i false = true := by
  intro l
  induction l with
  | nil => intro i h; exact absurd h (by simp)
  | cons b bs ih =>
    intro i h
    cases i with
    | zero => rfl
    | succ j =>
      simp only [List.set_cons_succ, List.getD_cons_succ]
      exact ih j (by simpa using h)

lemma getD_set_ne {i j : Nat} (hij : i ≠ j) :
    ∀ (l : List Bool) (b : Bool), (l.set i b).getD j false = l.getD j false := by
  induction i generalizing j with
  | zero =>
    intro l b
    cases l with
    | nil => simp
    | cons a as =>
      cases j with
      | zero => exact absurd rfl hij
      | succ k => simp [List.getD_cons_succ]
  | succ i' ih =>
    intro l b
    cases l with
    | nil => simp
    | cons a as =>
      cases j with
      | zero => simp [List.getD_cons_zero]
      | succ k =>
        simp only [List.set_cons_succ, List.getD_cons_succ]
        exact ih (fun h => hij (by rw [h])) as b

lemma getD_replicate_false : ∀ (n i : Nat), (List.replicate n false).getD i false = false := by
  intro n
  induction n with
  | zero => intro i; simp
  | succ m ih =>
    intro i
    cases i with
    | zero => rfl
    | succ j =>
      simp only [List.replicate_succ, List.getD_cons_succ]
      exact ih j

/-- Invariant characterisation of the flag-checking loop: from a `seen` state
of length 8, the loop succeeds exactly when every remaining character has a
position among the valid flags whose `seen` entry is still false, and no
character repeats. -/
lemma regExpFlagsLoop_ok_iff :
    ∀ (cs : List Char) (seen : List Bool), seen.length = 8 →
      (regExpFlagsLoop seen cs = .ok () ↔
        (∀ c ∈ cs, ∃ i, listPosition (fun f => f == c) VALID_FLAGS = some i ∧
          seen.getD i false = false) ∧ cs.Nodup) := by
  intro cs
  induction cs with
  | nil => intro seen _; simp [regExpFlagsLoop]
  | cons ch rest ih =>
    intro seen hlen
    simp only [regExpFlagsLoop]
    cases hpos : listPosition (fun f => f == ch) VALID_FLAGS with
    | none =>
      simp only [List.mem_cons]
      constructor
      · intro h; exact absurd h (by simp)
      · rintro ⟨hall, -⟩
        obtain ⟨i, hi, -⟩ := hall ch (Or.inl rfl)
        rw [hpos] at hi
        exact absurd hi (by simp)
    | some i =>
      dsimp only
      have hi8 : i < 8 := idx_lt_eight hpos
      by_cases hseen : seen.getD i false = true
      · rw [if_pos hseen]
        constructor
        · intro h; exact absurd h (by simp)
        · rintro ⟨hall, -⟩
          obtain ⟨j, hj, hgj⟩ := hall ch (List.mem_cons_self ch rest)
          rw [hpos] at hj
          injection hj with hj
          rw [← hj, hseen] at hgj
          exact absurd hgj (by simp)
      · rw [if_neg hseen]
        rw [ih (seen.set i true) (by simpa using hlen)]
        have hset_i : (seen.set i true).getD i false = true :=
          getD_set_true_self seen i (by omega)
        constructor
        · rintro ⟨hrest, hnd⟩
          have hch_not_mem : ch ∉ rest := by
            intro hmem
            obtain ⟨j, hj, hgj⟩ := hrest ch hmem
            rw [hpos] at hj
            injection hj with hj
            rw [← hj, hset_i] at hgj
            exact absurd hgj (by simp)
          refine ⟨?_, List.nodup_cons.mpr ⟨hch_not_mem, hnd⟩⟩
          intro c hc
          rcases List.mem_cons.mp hc with hceq | hcrest
          · subst hceq
            exact ⟨i, hpos, by simpa using hseen⟩
          · obtain ⟨j, hj, hgj⟩ := hrest c hcrest
            refine ⟨j, hj, ?_⟩
            have hij : i ≠ j := by
              intro hij
              rw [← hij, hset_i] at hgj
              exact absurd hgj (by simp)
            rw [getD_set_ne hij seen true] at hgj
            exact hgj
        · rintro ⟨hall, hnd⟩
          obtain ⟨hch_not_mem, hrest_nd⟩ := List.nodup_cons.mp hnd
          refine ⟨?_, hrest_nd⟩
          intro c hc
          obtain ⟨j, hj, hgj⟩ := hall c (List.mem_cons_of_mem ch hc)
          refine ⟨j, hj, ?_⟩
          have hij : i ≠ j := by
            intro hij
            have : ch = c := idx_injective hpos (hij ▸ hj)
            exact hch_not_mem (this ▸ hc)
          rw [getD_set_ne hij seen true]
          exact hgj

/-- One lowercase hexadecimal digit, as produced by Rust's `x` formatting. -/
def hexDigit (n : Nat) : Char :=
  if n < 10 then Char.ofNat ('0'.toNat + n) else Char.ofNat ('a'.toNat + (n - 10))

/-- Four-digit zero-padded lowercase hex, as produced by the serializer's
width-4 hex formatting for code points below 0x10000. -/
def hex4 (n : Nat) : String :=
  String.mk [hexDigit (n / 4096 % 16), hexDigit (n / 256 % 16),
    hexDigit (n / 16 % 16), hexDigit (n % 16)]

/-- Per-character escaping: the match arms of the loop body of
`write_escaped_string` in types.rs. -/
def escapeChar (ch : Char) : String :=
  if ch = '"' then "\\\""
  else if ch = '\\' then "\\\\"
  else if ch = '\n' then "\\n"
  else if ch = '\r' then "\\r"
  else if ch = '\t' then "\\t"
  else if ch = '\x08' then "\\b"
  else if ch = '\x0C' then "\\f"
  else if ch.toNat < 0x20 then "\\u" ++ hex4 ch.toNat
  else ch.toString

/-- The character loop of `write_escaped_string`: incremental writes of each
escaped character, modelled as string concatenation. -/
def escapeList : List Char → String
  | [] => ""
  | c :: cs => escapeChar c ++ escapeList cs

/-- Embedding of `write_escaped_string` from types.rs: opening quote, escaped body,
closing quote. -/
def write_escaped_string (s : String) : String :=
  "\"" ++ escapeList s.toList ++ "\""

/-- Text produced by Rust's `Display` for a `bool`. -/
def boolText (b : Bool) : String := if b then "true" else "false"

/-- The `Number` branch shared verbatim by both `Display` implementations:
`NaN`, `Infinity`, `-Infinity`, or the standard finite formatting. -/
def formatNumber (n : F64Model) : String :=
  if n.isNan then "NaN"
  else if n.isInfinite then (if n.isSignPositive then "Infinity" else "-Infinity")
  else n.finiteRepr

/-- Embedding of `impl fmt::Display for RdnValue` from `src/packages/rdn-rust/src/types.rs`;
the catch-all arm prints the fixed placeholder. -/
def displayRdn : RdnValue → String
  | .null => "null"
  | .bool b => boolText b
  | .number n => formatNumber n
  | .bigInt bi => bi.value ++ "n"
  | .string s => write_escaped_string s
  | _ => "[RdnValue]"

/-- Embedding of `impl fmt::Display for RdnValue` from `src/implementations/rust/src/types.rs`:
identical arms except `String`, which writes the raw text between quotes
without any escaping. -/
def displayRdnImpl : RdnValue → String
  | .null => "null"
  | .bool b => boolText b
  | .number n => formatNumber n
  | .bigInt bi => bi.value ++ "n"
  | .string s => "\"" ++ s ++ "\""
  | _ => "[RdnValue]"

/-- The escaping rule exactly as the specification words it: the seven named
two-character escapes, `\u00XX` (two literal zeros then two hex digits) for
any other control character below 0x20, all other characters literal. -/
def escapeCharSpec (ch : Char) : String :=
  if ch = '"' then "\\\""
  else if ch = '\\' then "\\\\"
  else if ch = '\n' then "\\n"
  else if ch = '\r' then "\\r"
  else if ch = '\t' then "\\t"
  else if ch = '\x08' then "\\b"
  else if ch = '\x0C' then "\\f"
  else if ch.toNat < 0x20 then
    "\\u00" ++ String.mk [hexDigit (ch.toNat / 16), hexDigit (ch.toNat % 16)]
  else ch.toString

/-- A character the packages-side escaper rewrites: quote, backslash, or a
control character below 0x20 (the named escapes all fall in this range). -/
def needsEscape (ch : Char) : Prop :=
  ch = '"' ∨ ch = '\\' ∨ ch.toNat < 0x20

instance : DecidablePred needsEscape := fun ch => by
  unfold needsEscape; infer_instance

/-- Embedding of `parse` from parser.rs: the body is a stub that unconditionally returns
`Err("Not implemented")` (the recursive-descent parser is a TODO). -/
def parse (_input : String) : Except String RdnValue :=
  .error "Not implemented"

/-- Embedding of `stringify` from serializer.rs: the body is `todo!()`, which panics
unconditionally; a panicking call produces no return value, modelled as
`none`. -/
def stringify (_value : RdnValue) : Option String :=
  none

end Rdn

namespace Rdn

/-! ### Claims C4, C5, C10: validated constructors -/

/-- C4: `BigInt::new` succeeds exactly on an optional `'-'` followed by at
least one ASCII digit; the listed examples behave as claimed. -/
theorem bigInt_new_ok_iff_valid :
    (∀ s : String, isOkE (BigInt.new s) = isValidBigIntText s)
    ∧ isOkE (BigInt.new "12345") = true
    ∧ isOkE (BigInt.new "") = false
    ∧ isOkE (BigInt.new "-") = false
    ∧ isOkE (BigInt.new "12a3") = false
    ∧ isOkE (BigInt.new "1.5") = false := by
  refine ⟨fun s => ?_, by decide, by decide, by decide, by decide, by decide⟩
  unfold BigInt.new isValidBigIntText
  cases h : s.toList with
  | nil => simp [stripMinus, isOkE]
  | cons c rest =>
    by_cases hc : c = '-'
    · subst hc
      simp only [stripMinus, List.isEmpty_cons, Option.getD_some, List.head?_cons,
        List.tail_cons, Option.some.injEq, if_pos rfl, Bool.false_eq_true, if_false]
      by_cases he : rest.isEmpty
      · simp [he, isOkE]
      · by_cases hd : rest.all Char.isDigit
        · simp [he, hd, isOkE]
        · simp [he, hd, isOkE]
    · rw [stripMinus_cons_ne rest hc]
      simp only [Option.getD_none, List.isEmpty_cons, List.head?_cons,
        Option.some.injEq, if_neg hc, Bool.false_eq_true, if_false]
      by_cases hd : (c :: rest).all Char.isDigit
      · simp [hd, isOkE]
      · simp [hd, isOkE]

/-- C5: For `u8`/`u16` inputs, `RdnTimeOnly::new` succeeds exactly when all
four fields are in range; the listed boundary examples behave as claimed. -/
theorem timeOnly_new_ok_iff_in_range :
    (∀ h m s ms : Nat, h < 256 → m < 256 → s < 256 → ms < 65536 →
      (isOkE (RdnTimeOnly.new h m s ms) = true ↔
        h ≤ 23 ∧ m ≤ 59 ∧ s ≤ 59 ∧ ms ≤ 999))
    ∧ isOkE (RdnTimeOnly.new 23 59 59 999) = true
    ∧ isOkE (RdnTimeOnly.new 24 0 0 0) = false
    ∧ isOkE (RdnTimeOnly.new 12 60 0 0) = false
    ∧ isOkE (RdnTimeOnly.new 12 30 60 0) = false
    ∧ isOkE (RdnTimeOnly.new 12 30 0 1000) = false := by
  refine ⟨fun h m s ms _ _ _ _ => ?_, by decide, by decide, by decide, by decide, by decide⟩
  unfold RdnTimeOnly.new
  split_ifs with h1 h2 h3 h4 <;> simp [isOkE] <;> omega

/-- Closed witness for `timeOnly_new_ok_iff_in_range` at the boundary input. -/
theorem timeOnly_new_witness :
    23 < 256 ∧ (isOkE (RdnTimeOnly.new 23 59 59 999) = true ↔
      23 ≤ 23 ∧ 59 ≤ 59 ∧ 59 ≤ 59 ∧ 999 ≤ 999) :=
  ⟨by decide, timeOnly_new_ok_iff_in_range.1 23 59 59 999
    (by decide) (by decide) (by decide) (by decide)⟩

/-- C10: Whenever `BigInt::new s` succeeds, the stored `value` is exactly
the input string `s`, sign and leading zeros included. -/
theorem bigInt_new_stores_input (s : String) (b : BigInt)
    (h : BigInt.new s = .ok b) : b.value = s := by
  unfold BigInt.new at h
  split_ifs at h
  injection h with hv
  rw [← hv]

/-- Closed witness for `bigInt_new_stores_input` at the input `"-0042"`. -/
theorem bigInt_new_stores_input_witness :
    BigInt.new "-0042" = .ok (BigInt.mk "-0042")
      ∧ (BigInt.mk "-0042").value = "-0042" :=
  ⟨by rfl, bigInt_new_stores_input "-0042" (BigInt.mk "-0042") (by rfl)⟩

/-! ### Claim C6: RegExp flag validation -/

/-- C6: `RdnRegExp::new` accepts any source and succeeds exactly when every
flag character is drawn from `dgimsuvy` with no repetition; the listed
examples behave as claimed. -/
theorem regExp_new_ok_iff :
    (∀ source flags : String,
      isOkE (RdnRegExp.new source flags) = true ↔
        (∀ c ∈ flags.toList, c ∈ VALID_FLAGS) ∧ flags.toList.Nodup)
    ∧ isOkE (RdnRegExp.new "." "dgimsuyv") = true
    ∧ isOkE (RdnRegExp.new "." "x") = false
    ∧ isOkE (RdnRegExp.new "." "gg") = false := by
  refine ⟨fun source flags => ?_, by decide, by decide, by decide⟩
  unfold RdnRegExp.new
  have hloop := regExpFlagsLoop_ok_iff flags.toList (List.replicate 8 false) (by simp)
  cases hres : regExpFlagsLoop (List.replicate 8 false) flags.toList with
  | ok u =>
    cases u
    dsimp only
    have hinv := hloop.mp hres
    have hrhs : (∀ c ∈ flags.toList, c ∈ VALID_FLAGS) ∧ flags.toList.Nodup := by
      refine ⟨fun c hc => ?_, hinv.2⟩
      obtain ⟨i, hi, -⟩ := hinv.1 c hc
      exact listPosition_isSome_iff.mp (by simp [hi])
    exact iff_of_true rfl hrhs
  | error e =>
    dsimp only
    constructor
    · intro h; exact absurd h (by simp [isOkE])
    · rintro ⟨hmem, hnd⟩
      have hok : regExpFlagsLoop (List.replicate 8 false) flags.toList = .ok () := by
        apply hloop.mpr
        refine ⟨fun c hc => ?_, hnd⟩
        have hsome : (listPosition (fun f => f == c) VALID_FLAGS).isSome :=
          listPosition_isSome_iff.mpr (hmem c hc)
        obtain ⟨i, hi⟩ := Option.isSome_iff_exists.mp hsome
        exact ⟨i, hi, getD_replicate_false 8 i⟩
      rw [hres] at hok
      exact absurd hok (by simp)

/-! ### Claim C7: string escaping -/

lemma escapeChar_eq_spec (ch : Char) : escapeChar ch = escapeCharSpec ch := by
  unfold escapeChar escapeCharSpec
  split_ifs with h1 h2 h3 h4 h5 h6 h7 h8
  any_goals rfl
  unfold hex4
  have e4096 : ch.toNat / 4096 % 16 = 0 := by omega
  have e256 : ch.toNat / 256 % 16 = 0 := by omega
  have e16 : ch.toNat / 16 % 16 = ch.toNat / 16 := by omega
  rw [e4096, e256, e16]
  have hz : hexDigit 0 = '0' := by decide
  rw [hz]
  rfl

lemma stringJoin_cons (a : String) (l : List String) :
    String.join (a :: l) = a ++ String.join l := by
  rw [String.join_eq, String.join_eq]
  rfl

lemma escapeList_eq_join_spec : ∀ l : List Char,
    escapeList l = String.join (l.map escapeCharSpec) := by
  intro l
  induction l with
  | nil => rfl
  | cons c cs ih =>
    simp only [escapeList, List.map_cons, stringJoin_cons]
    rw [escapeChar_eq_spec, ih]

/-- C7: Serializing a `String` value (the `Display`/`write_escaped_string`
path) produces exactly the quoted, escaped text the spec describes, for every
string; the spec's worked example evaluates to exactly the claimed output. -/
theorem string_escaping_canonical :
    (∀ s : String, displayRdn (.string s) =
      "\"" ++ String.join (s.toList.map escapeCharSpec) ++ "\"")
    ∧ displayRdn (.string "a\\b\nc\t\"d\x02\re") =
        "\"a\\\\b\\nc\\t\\\"d\\u0002\\re\"" := by
  constructor
  · intro s
    simp only [displayRdn, write_escaped_string, escapeList_eq_join_spec]
  · decide

/-! ### Claim C8: Display placeholder for composite and temporal variants -/

/-- C8: The `Display` implementation in packages/rdn-rust prints the fixed
placeholder text for every Array, Object, Date, TimeOnly, Duration, RegExp,
Binary, Map and Set value, discarding all content. -/
theorem display_composite_placeholder :
    (∀ xs, displayRdn (.array xs) = "[RdnValue]")
    ∧ (∀ ps, displayRdn (.object ps) = "[RdnValue]")
    ∧ (∀ d, displayRdn (.date d) = "[RdnValue]")
    ∧ (∀ t, displayRdn (.timeOnly t) = "[RdnValue]")
    ∧ (∀ d, displayRdn (.duration d) = "[RdnValue]")
    ∧ (∀ r, displayRdn (.regExp r) = "[RdnValue]")
    ∧ (∀ bs, displayRdn (.binary bs) = "[RdnValue]")
    ∧ (∀ ps, displayRdn (.map ps) = "[RdnValue]")
    ∧ (∀ xs, displayRdn (.set xs) = "[RdnValue]") :=
  ⟨fun _ => rfl, fun _ => rfl, fun _ => rfl, fun _ => rfl, fun _ => rfl,
   fun _ => rfl, fun _ => rfl, fun _ => rfl, fun _ => rfl⟩

/-! ### Claim C9: comparing the two Display implementations -/

/-- The two `Display` implementations disagree already on the one-character
string containing a line feed: the packages version escapes it, the
implementations version emits it raw. -/
theorem display_impls_differ_on_newline :
    displayRdnImpl (.string "\n") ≠ displayRdn (.string "\n") := by decide

lemma escapeChar_plain {c : Char} (h : ¬ needsEscape c) : escapeChar c = c.toString := by
  unfold needsEscape at h
  push_neg at h
  obtain ⟨h1, h2, h3⟩ := h
  have h3n : ¬ c.toNat < 0x20 := Nat.not_lt.mpr h3
  have hn : c ≠ '\n' := fun hc => h3n (by rw [hc]; decide)
  have hr : c ≠ '\r' := fun hc => h3n (by rw [hc]; decide)
  have ht : c ≠ '\t' := fun hc => h3n (by rw [hc]; decide)
  have hb : c ≠ '\x08' := fun hc => h3n (by rw [hc]; decide)
  have hf : c ≠ '\x0C' := fun hc => h3n (by rw [hc]; decide)
  unfold escapeChar
  rw [if_neg h1, if_neg h2, if_neg hn, if_neg hr, if_neg ht, if_neg hb,
    if_neg hf, if_neg h3n]

lemma escapeList_plain : ∀ l : List Char, (∀ c ∈ l, ¬ needsEscape c) →
    escapeList l = String.mk l := by
  intro l
  induction l with
  | nil => intro _; rfl
  | cons c cs ih =>
    intro h
    simp only [escapeList]
    rw [escapeChar_plain (h c (List.mem_cons_self c cs)),
      ih (fun d hd => h d (List.mem_cons_of_mem c hd))]
    rfl

/-- C9, amended: The two `Display` implementations agree on every variant
except `String`; on a `String` they agree whenever the text contains no quote,
backslash, or control character below 0x20 (by `display_impls_differ_on_newline`
they genuinely differ otherwise). -/
theorem display_impls_agree_except_escapes :
    (∀ s : String, (∀ c ∈ s.toList, ¬ needsEscape c) →
      displayRdnImpl (.string s) = displayRdn (.string s))
    ∧ displayRdnImpl .null = displayRdn .null
    ∧ (∀ b, displayRdnImpl (.bool b) = displayRdn (.bool b))
    ∧ (∀ n, displayRdnImpl (.number n) = displayRdn (.number n))
    ∧ (∀ bi, displayRdnImpl (.bigInt bi) = displayRdn (.bigInt bi))
    ∧ (∀ xs, displayRdnImpl (.array xs) = displayRdn (.array xs))
    ∧ (∀ ps, displayRdnImpl (.object ps) = displayRdn (.object ps))
    ∧ (∀ d, displayRdnImpl (.date d) = displayRdn (.date d))
    ∧ (∀ t, displayRdnImpl (.timeOnly t) = displayRdn (.timeOnly t))
    ∧ (∀ d, displayRdnImpl (.duration d) = displayRdn (.duration d))
    ∧ (∀ r, displayRdnImpl (.regExp r) = displayRdn (.regExp r))
    ∧ (∀ bs, displayRdnImpl (.binary bs) = displayRdn (.binary bs))
    ∧ (∀ ps, displayRdnImpl (.map ps) = displayRdn (.map ps))
    ∧ (∀ xs, displayRdnImpl (.set xs) = displayRdn (.set xs)) := by
  refine ⟨fun s hs => ?_, rfl, fun _ => rfl, fun _ => rfl, fun _ => rfl,
    fun _ => rfl, fun _ => rfl, fun _ => rfl, fun _ => rfl, fun _ => rfl,
    fun _ => rfl, fun _ => rfl, fun _ => rfl, fun _ => rfl⟩
  simp only [displayRdnImpl, displayRdn, write_escaped_string]
  rw [escapeList_plain s.toList hs]
  rfl

/-- Closed witness for `display_impls_agree_except_escapes` on the plain
string `"ok"`. -/
theorem display_impls_agree_witness :
    (∀ c ∈ "ok".toList, ¬ needsEscape c)
      ∧ displayRdnImpl (.string "ok") = displayRdn (.string "ok") :=
  ⟨by decide, display_impls_agree_except_escapes.1 "ok" (by decide)⟩

/-! ### Claims C1, C2, C3: the parser and serializer stubs -/

/-- C1, code bug: Round-tripping is impossible in the code as written:
`stringify` produces no text for any value (its body panics), and `parse`
never returns `Ok` for any input. -/
theorem roundtrip_impossible :
    stringify RdnValue.null = none
    ∧ (∀ s : String, isOkE (parse s) = false) :=
  ⟨rfl, fun _ => rfl⟩

/-- C2, code bug: On the spec's end-to-end example input, `parse` returns
`Err("Not implemented")`, not the claimed three-entry object. -/
theorem parse_example_not_implemented :
    parse "\x7b\"date\": @2024-01-15T10:30:00.000Z, \"id\": 42n, \"tags\": Set\x7b\"a\", \"b\"\x7d\x7d"
      = .error "Not implemented" := rfl

/-- C3, code bug: `stringify` never returns a result — for every value the
call panics (`todo!()`), so its only behaviour is the modelled `none`, not a
text or a `CyclicStructure` error value. -/
theorem stringify_always_panics :
    ∀ v : RdnValue, stringify v = none :=
  fun _ => rfl

end Rdn
